import Mathlib

/-!
# Verification of the crawl-and-dedupe crawler

Shallow embedding of the repository's core: the persistence layer
(`utils/data_utils.py`), the crawl orchestrator loop (`main.py`), the item
extractor fallback path (`utils/scraper_utils.py`) and the link-discovery
failure path (`utils/scraper_utils.py`).

Modelling conventions:
* A Python `dict` with string keys is an association list `List (String × α)`
  with insertion-ordered, duplicate-free keys; `d[k] = v` keeps the position
  of an existing key and appends a fresh key, exactly as CPython dicts do.
* The CSV file is a header plus a list of raw cell rows.  `csv.DictReader`
  turns a cell row into a dict by pairing header fields with cells
  (`dict(zip(header, cells))`); `csv.DictWriter` projects a dict onto the
  field names (missing fields become the `restval` `""`) and raises
  `ValueError` when the dict has a key outside the field names.
* Fallible calls return `Option`: `none` models a raised exception.
* The random draws of `random.random()` and the fetch/extraction outcomes are
  oracle inputs, one per loop entry; probabilities are rationals.
-/

namespace Crawl

/-- A Python dict with `String` keys, as an insertion-ordered association
list. -/
abbrev Dict (α : Type) := List (String × α)

/-- A scraped record (a Python dict of string fields), e.g. the output of
`scrape_blog_post` or a row read back from the CSV file. -/
abbrev Post := Dict String

/-- `d.get(k)`: the value stored at key `k`, if any. -/
def dictGet {α : Type} (d : Dict α) (k : String) : Option α :=
  (d.find? (fun e => decide (e.1 = k))).map Prod.snd

/-- `k in d`: key membership in a Python dict. -/
def dictContains {α : Type} (d : Dict α) (k : String) : Bool :=
  decide (k ∈ d.map Prod.fst)

/-- `d[k] = v`: CPython dict assignment.  An existing key keeps its position
and gets the new value; a fresh key is appended. -/
def dictInsert {α : Type} (d : Dict α) (k : String) (v : α) : Dict α :=
  if dictContains d k then d.map (fun e => if e.1 = k then (k, v) else e)
  else d ++ [(k, v)]

/-- Modelled from the spec: the `BlogPost` Record model.  `models/venue.py` in
src defines a `Venue` class, while `data_utils.py` and `scraper_utils.py`
pull `BlogPost` in from `models.venue`; the `BlogPost` class itself is missing
from src.  The spec's Record model for this target ("title, body, link"), the
extraction instruction in `get_content_extraction_strategy` and the
`fallback_post` record all give the declared field order `title, body, link`.
This list stands for `BlogPost.model_fields.keys()`. -/
def blogPostFields : List String := ["title", "body", "link"]

/-- The persisted CSV file: a header row plus raw data rows
(`data_utils.py`, written by `csv.DictWriter`). -/
structure CsvFile where
  header : List String
  rows : List (List String)
deriving DecidableEq, Repr

/-- `csv.DictReader` row construction: `dict(zip(header, cells))`, built by
repeated dict assignment so that a duplicated header column keeps the first
position with the last value, as in CPython. -/
def cellsToRow (header : List String) (cells : List String) : Post :=
  (header.zip cells).foldl (fun d e => dictInsert d e.1 e.2) []

/-- All rows of the file as the dicts `csv.DictReader` yields. -/
def readDicts (f : CsvFile) : List Post :=
  f.rows.map (cellsToRow f.header)

/-- `csv.DictWriter._dict_to_list`: project a dict onto the field names,
filling missing fields with the `restval` `""`; a key outside the field names
raises `ValueError` (`none`). -/
def dictToCells (fs : List String) (p : Post) : Option (List String) :=
  if p.all (fun e => decide (e.1 ∈ fs)) then
    some (fs.map (fun fn => (dictGet p fn).getD ""))
  else none

/-- `csv.DictWriter.writerows`: write every record, stopping with an
exception (`none`) at the first record that has a stray key. -/
def writeAll (fs : List String) : List Post → Option (List (List String))
  | [] => some []
  | p :: rest =>
    match dictToCells fs p, writeAll fs rest with
    | some r, some rs => some (r :: rs)
    | _, _ => none

/-- The identity key of a CSV row (`data_utils.py` lines 72 and
`main.py` line 44): the `link` field when it is present and non-empty
(`if 'link' in row and row['link']:`). -/
def rowKey (r : Post) : Option String :=
  match dictGet r "link" with
  | some l => if l = "" then none else some l
  | none => none

/-- `save_posts_to_csv` lines 67-73: load the existing rows into an ordered
mapping keyed by their `link` field, skipping rows without a usable key. -/
def buildExistingAux (m : Dict Post) (rows : List Post) : Dict Post :=
  rows.foldl
    (fun m r =>
      match rowKey r with
      | some l => dictInsert m l r
      | none => m) m

/-- The ordered `existing_posts` mapping read from the file
(`data_utils.py` lines 67-73). -/
def buildExisting (rows : List Post) : Dict Post :=
  buildExistingAux [] rows

/-- `save_posts_to_csv` lines 87-95: merge each new post into the mapping by
its `link` key, newest wins.  A post without a `link` key reaches
`existing_posts[post['link']]` and raises `KeyError` (`none`): `post.get('link')`
is then `None`, which is never a key of the mapping. -/
def mergePosts (m : Dict Post) : List Post → Option (Dict Post)
  | [] => some m
  | p :: rest =>
    match dictGet p "link" with
    | some l => mergePosts (dictInsert m l p) rest
    | none => none

/-- The list of records `save_posts_to_csv` hands to `writerows`: the posts
themselves on the overwrite path, the merged mapping's values on the append
path (`data_utils.py` lines 61 and 101). -/
def persistedRecords (posts : List Post) (file : Option CsvFile)
    (append : Bool) : Option (List Post) :=
  match file, append with
  | some f, true => (mergePosts (buildExisting (readDicts f)) posts).map (·.map Prod.snd)
  | _, _ => some posts

/-- `save_posts_to_csv` (`data_utils.py` lines 37-103).  The file argument is
the current file state (`none` = the file does not exist); the result is
`none` when the call raises, otherwise the new file state.  The
read-error fallback branch (lines 74-81) is unreachable here because the
modelled read never raises. -/
def save_posts_to_csv (posts : List Post) (file : Option CsvFile)
    (append : Bool) : Option (Option CsvFile) :=
  if posts.isEmpty then some file
  else
    match persistedRecords posts file append with
    | none => none
    | some recs =>
      match writeAll blogPostFields recs with
      | none => none
      | some rs => some (some ⟨blogPostFields, rs⟩)

/-- `is_complete_post` (`data_utils.py` lines 23-34):
`all(key in post and post[key] for key in required_keys)` — a key must be
present with a truthy (non-empty) value. -/
def is_complete_post (post : Post) (required_keys : List String) : Bool :=
  required_keys.all (fun k => (dictGet post k).getD "" != "")

/-- `REQUIRED_KEYS` (`config.py` lines 5-13). -/
def REQUIRED_KEYS : List String :=
  ["name", "price", "location", "capacity", "rating", "reviews", "description"]

/-! ## The crawl orchestrator (main.py) -/

/-- `load_existing_posts` (`main.py` lines 24-51): the set of non-empty
`link` values of the rows of the existing file (`if 'link' in row and
row['link']`); a missing file gives the empty set.  The set is modelled as a
duplicate-free list in first-appearance order. -/
def load_existing_posts (file : Option CsvFile) : List String :=
  match file with
  | none => []
  | some f =>
    (readDicts f).foldl
      (fun acc row =>
        match rowKey row with
        | some l => if l ∈ acc then acc else acc ++ [l]
        | none => acc) []

/-- One discovered entry of the shuffled link list together with the
external outcomes its iteration would consume: `r` is the `random.random()`
draw of the refresh decision (`main.py` line 123), `u` the `random.random()`
draw of the delay jitter (line 134), and `fetched` the record
`scrape_blog_post` returns for it (it always returns a dict, degrading to a
fallback record on failure). -/
structure CrawlInput where
  link_data : Post
  r : ℚ
  u : ℚ
  fetched : Post
deriving DecidableEq

/-- The orchestrator state of `crawl_blog_posts` (`main.py` lines 72-79),
plus a log of the applied inter-request delays — one entry
`(i, processed-before, u)` per executed `asyncio.sleep` (lines 131-136),
recording the jitter draw `u` of a sleep of `delayValue delay_seconds u`
seconds — and an `aborted` flag modelling an exception escaping the loop; the
partially written file of a failed save is not modelled. -/
structure CrawlState where
  seen_links : List String
  processed : ℕ
  successful : ℕ
  failed : ℕ
  skipped : ℕ
  refreshed : ℕ
  all_posts : List Post
  file : Option CsvFile
  delayLog : List (ℕ × ℕ × ℚ)
  aborted : Bool
deriving DecidableEq

/-- The initial state (`main.py` lines 72-79). -/
def initState (file : Option CsvFile) : CrawlState :=
  ⟨[], 0, 0, 0, 0, 0, [], file, [], false⟩

/-- The intermediate save (`main.py` lines 153-158 and 173-176): on success
the pending batch is flushed into the file; a raised save aborts the run
(the `except` handler at lines 166-171 retries the same failing save and
re-raises). -/
def savePending (s : CrawlState) : CrawlState :=
  match save_posts_to_csv s.all_posts s.file true with
  | some f' => { s with file := f', all_posts := [] }
  | none => { s with aborted := true }

/-- The VALIDATING/acceptance step (`main.py` lines 144-161), entered with
`processed` already incremented: the record is accepted iff it is non-empty
and has every key of `REQUIRED_KEYS` (`if post_data and all(key in post_data
for key in REQUIRED_KEYS)`); an accepted record is counted as refreshed or
new and batched, and the batch is saved once it holds 2 records or
`processed` reached `max_posts`; a rejected record increments `failed`. -/
def crawlValidate (already : List String) (max_posts : ℕ) (link : String)
    (post_data : Post) (s : CrawlState) : CrawlState :=
  if post_data ≠ [] ∧ ∀ k ∈ REQUIRED_KEYS, dictContains post_data k = true then
    if link ∈ already then
      if 2 ≤ (s.all_posts ++ [post_data]).length ∨ max_posts ≤ s.processed then
        savePending { s with refreshed := s.refreshed + 1,
                             all_posts := s.all_posts ++ [post_data] }
      else { s with refreshed := s.refreshed + 1,
                    all_posts := s.all_posts ++ [post_data] }
    else
      if 2 ≤ (s.all_posts ++ [post_data]).length ∨ max_posts ≤ s.processed then
        savePending { s with successful := s.successful + 1,
                             all_posts := s.all_posts ++ [post_data] }
      else { s with successful := s.successful + 1,
                    all_posts := s.all_posts ++ [post_data] }
  else { s with failed := s.failed + 1 }

/-- The delay applied before a fetch (`main.py` line 134):
`current_delay = delay_seconds * (0.8 + 0.4 * random.random())`. -/
def delayValue (delay_seconds u : ℚ) : ℚ :=
  delay_seconds * (4/5 + 2/5 * u)

/-- The delay plus FETCHING step (`main.py` lines 131-142): an inter-request
delay is applied when the entry is not at index 0 of the shuffled list
(`if i > 0`), sleeping `delayValue delay_seconds u` seconds (the log records
the draw `u`); then the post is fetched and `processed` incremented
regardless of success. -/
def crawlFetch (delay_seconds : ℚ) (already : List String) (max_posts : ℕ)
    (i : ℕ) (inp : CrawlInput) (link : String) (s : CrawlState) : CrawlState :=
  if 0 < i then
    crawlValidate already max_posts link inp.fetched
      { s with
          processed := s.processed + 1,
          delayLog := s.delayLog ++ [(i, s.processed, inp.u)] }
  else
    crawlValidate already max_posts link inp.fetched
      { s with processed := s.processed + 1 }

/-- One iteration body of the crawl loop (`main.py` lines 101-164) for the
entry at index `i` of the shuffled list: skip an entry whose link is missing
or empty, skip a link already seen in this run, mark the link seen, then
DECIDE for already-scraped links — skip (increment `skipped`) exactly when
`random.random() ≥ random_factor` — and otherwise delay, fetch and
validate. -/
def crawlStep (random_factor delay_seconds : ℚ) (already : List String)
    (max_posts : ℕ) (i : ℕ) (inp : CrawlInput) (s : CrawlState) : CrawlState :=
  if (dictGet inp.link_data "link").getD "" = "" then s
  else if (dictGet inp.link_data "link").getD "" ∈ s.seen_links then s
  else if (dictGet inp.link_data "link").getD "" ∈ already ∧ ¬ (inp.r < random_factor) then
    { s with seen_links := s.seen_links ++ [(dictGet inp.link_data "link").getD ""],
             skipped := s.skipped + 1 }
  else
    crawlFetch delay_seconds already max_posts i inp
      ((dictGet inp.link_data "link").getD "")
      { s with seen_links := s.seen_links ++ [(dictGet inp.link_data "link").getD ""] }

/-- The crawl loop (`main.py` lines 101-105): iterate the shuffled entries in
order, breaking at the top of an iteration once `processed ≥ max_posts`; an
exception (failed save) ends the loop. -/
def crawlLoop (random_factor delay_seconds : ℚ) (already : List String)
    (max_posts : ℕ) : List CrawlInput → ℕ → CrawlState → CrawlState
  | [], _, s => s
  | inp :: rest, i, s =>
    if s.aborted then s
    else if max_posts ≤ s.processed then s
    else
      crawlLoop random_factor delay_seconds already max_posts rest (i + 1)
        (crawlStep random_factor delay_seconds already max_posts i inp s)

/-- `crawl_blog_posts` (`main.py` lines 54-178): load the existing keys,
return immediately when link discovery yielded nothing (`if not links:
return`), otherwise run the loop over the shuffled entries and flush any
remaining batch.  `links` is the entry list in post-shuffle order, each with
its oracle draws; `max_posts` is a count, so the nonnegative `ℕ`. -/
def crawl_blog_posts (random_factor delay_seconds : ℚ) (max_posts : ℕ)
    (file : Option CsvFile) (links : List CrawlInput) : CrawlState :=
  if links = [] then initState file
  else
    if (crawlLoop random_factor delay_seconds (load_existing_posts file) max_posts
        links 0 (initState file)).aborted then
      crawlLoop random_factor delay_seconds (load_existing_posts file) max_posts
        links 0 (initState file)
    else if (crawlLoop random_factor delay_seconds (load_existing_posts file) max_posts
        links 0 (initState file)).all_posts ≠ [] then
      savePending (crawlLoop random_factor delay_seconds (load_existing_posts file)
        max_posts links 0 (initState file))
    else
      crawlLoop random_factor delay_seconds (load_existing_posts file) max_posts
        links 0 (initState file)

/-- The counter invariant of the crawl loop: the final-summary identity and
the `max_posts` bound. -/
def countersInv (max_posts : ℕ) (s : CrawlState) : Prop :=
  s.successful + s.refreshed + s.failed = s.processed ∧ s.processed ≤ max_posts

/-! ## The item extractor and link discovery (scraper_utils.py) -/

/-- Squeeze every run of whitespace to a single space —
`re.sub(r'\s+', ' ', s)` (`scraper_utils.py` line 266); the Bool flag records
whether the previous character was whitespace. -/
def squeezeWs : List Char → Bool → List Char
  | [], _ => []
  | c :: rest, prevWs =>
    if c.isWhitespace then
      if prevWs then squeezeWs rest true else ' ' :: squeezeWs rest true
    else c :: squeezeWs rest false

/-- Drop leading and trailing spaces (after squeezing, the only whitespace
left) — the trailing `.strip()` of `scraper_utils.py` line 266. -/
def stripSpaces (l : List Char) : List Char :=
  ((l.dropWhile (· = ' ')).reverse.dropWhile (· = ' ')).reverse

/-- `re.sub(r'\s+', ' ', content_snippet).strip()`
(`scraper_utils.py` line 266). -/
def cleanSnippet (s : String) : String :=
  ⟨stripSpaces (squeezeWs s.toList false)⟩

/-- `fallback_post` (`scraper_utils.py` lines 251-273): the degraded record
built from the link entry's title and URL, with a placeholder body carrying
up to 300 characters of cleaned partial content when available. -/
def fallback_post (title url content_snippet : String) : Post :=
  [("title", title),
   ("body",
     if content_snippet = "" then
       "Content extraction failed due to API limitations."
     else
       "Content extraction failed due to API limitations." ++ " Partial content: " ++
         (cleanSnippet content_snippet).take 300 ++ "..."),
   ("link", url)]

/-- `scrape_blog_post` (`scraper_utils.py` lines 180-248).  External effects
are oracle inputs: `fetchOk = false` models `result.success` false on the
page fetch; `main_content` is the (abstracted) `extract_main_content` output
for the fetched page; `extractOk = false` models a failed or empty
`process_content` extraction; `parsed` is the `json.loads` outcome for the
extracted content, where `none` models any exception inside the `try`
(including malformed non-dict output, whose attribute access raises and is
caught at line 246).  Every failure path degrades to `fallback_post`;
otherwise a missing or empty `title`/`link` is filled in from the entry. -/
def scrape_blog_post (title url : String) (fetchOk : Bool) (main_content : String)
    (extractOk : Bool) (parsed : Option Post) : Post :=
  if fetchOk = false then fallback_post title url ""
  else if extractOk = false then fallback_post title url (main_content.take 500)
  else
    match parsed with
    | none => fallback_post title url ""
    | some post_data =>
      let p1 :=
        if (dictGet post_data "title").getD "" = "" then
          dictInsert post_data "title" title
        else post_data
      if (dictGet p1 "link").getD "" = "" then dictInsert p1 "link" url else p1

/-- Whether `pat` starts at the head of the second list. -/
def startsHere : List Char → List Char → Bool
  | [], _ => true
  | _ :: _, [] => false
  | a :: as, b :: bs => a == b && startsHere as bs

/-- Whether `pat` occurs anywhere in the list — Python's `in` on strings. -/
def occursIn (pat : List Char) : List Char → Bool
  | [] => startsHere pat []
  | c :: rest => startsHere pat (c :: rest) || occursIn pat rest

/-- `sub in s` for strings. -/
def strContainsSub (s pat : String) : Bool :=
  occursIn pat.toList s.toList

/-- The navigation stoplist check (`scraper_utils.py` line 156):
`any(x in title.lower() for x in ['next', 'previous', 'all posts',
'view all'])`. -/
def navTitle (title : String) : Bool :=
  ["next", "previous", "all posts", "view all"].any
    (fun x => strContainsSub title.toLower x)

/-- Absolute-URL normalization (`scraper_utils.py` lines 160-164). -/
def absolutize (link : String) : String :=
  if link.startsWith "http" then link
  else if link.startsWith "/" then "https://www.upguard.com" ++ link
  else "https://www.upguard.com/" ++ link

/-- The candidate-filtering loop of `extract_blog_post_links`
(`scraper_utils.py` lines 151-168): each regex match gives a (href, cleaned
title) pair; keep entries with a title, a link containing "/blog/" and no
navigation title, absolutize the link, and append only long-titled entries
whose link is not already collected. -/
def processMatches (ms : List (String × String)) : List Post :=
  ms.foldl
    (fun links_data m =>
      if m.2 ≠ "" ∧ m.1 ≠ "" ∧ strContainsSub m.1 "/blog/" = true then
        if navTitle m.2 then links_data
        else
          if 10 < m.2.length ∧
              absolutize m.1 ∉ links_data.map (fun d => (dictGet d "link").getD "") then
            links_data ++ [[("title", m.2), ("link", absolutize m.1)]]
          else links_data
      else links_data) []

/-- `extract_blog_post_links` (`scraper_utils.py` lines 110-177).  The
crawl4ai fetch and the regex scan over `result.cleaned_html` (lines 131-153)
are abstracted into the input: `none` models a fetch with `result.success`
false, `some ms` a successful fetch whose scan yields the (href,
tag-stripped title) candidate pairs.  On fetch failure the function returns
the empty list — the same value a successful fetch with zero usable
candidates yields.  The stable sort puts deeper paths
(`x["link"].count("/") > 4`) first, and the first `max_links` entries are
kept. -/
def extract_blog_post_links (fetchResult : Option (List (String × String)))
    (max_links : ℕ) : List Post :=
  match fetchResult with
  | none => []
  | some ms =>
    ((processMatches ms).filter
        (fun d => decide (4 < ((dictGet d "link").getD "").toList.count '/'))
      ++ (processMatches ms).filter
        (fun d => ! decide (4 < ((dictGet d "link").getD "").toList.count '/'))).take
      max_links

/-! ## Statement vocabulary -/

/-- The newest record in `posts` whose `link` field is `l` — the record that
"newest wins" semantics keeps for key `l`. -/
def lastPostWith (l : String) : List Post → Option Post
  | [] => none
  | p :: rest =>
    match lastPostWith l rest with
    | some q => some q
    | none => if dictGet p "link" = some l then some p else none

/-- The genuinely new keys contributed by a batch, in first-occurrence order,
relative to the keys `ks` already present (the order in which the merge
appends them). -/
def newKeysAux (ks : List String) : List Post → List String
  | [] => []
  | p :: rest =>
    match dictGet p "link" with
    | some l =>
      if l ∈ ks then newKeysAux ks rest else l :: newKeysAux (ks ++ [l]) rest
    | none => []

/-- The identity keys of the rows of a file, in row order. -/
def existingKeys (f : CsvFile) : List String :=
  (readDicts f).filterMap rowKey

/-- The DictWriter projection of a record onto the Record schema, as the next
DictReader will read it back. -/
def normRow (p : Post) : Post :=
  blogPostFields.map (fun fn => (fn, (dictGet p fn).getD ""))

/-- The `link` column of the file, row by row (empty cell for a row without
one). -/
def linkCells (f : CsvFile) : List String :=
  (readDicts f).map (fun r => (dictGet r "link").getD "")

/-- The row of the file whose `link` field is `l`, if any. -/
def rowFor (f : CsvFile) (l : String) : Option Post :=
  (readDicts f).find? (fun r => decide (dictGet r "link" = some l))

/-- A record shaped exactly like the Record schema: it has every schema field
and no stray key. -/
def wfPost (p : Post) : Prop :=
  (∀ fn ∈ blogPostFields, fn ∈ p.map Prod.fst) ∧ ∀ e ∈ p, e.1 ∈ blogPostFields

/-! ## Dictionary lemmas -/

theorem dictGet_cons {α : Type} (e : String × α) (d : Dict α) (k : String) :
    dictGet (e :: d) k = if e.1 = k then some e.2 else dictGet d k := by
  simp only [dictGet, List.find?_cons]
  by_cases h : e.1 = k
  · simp [h]
  · simp [h]

theorem dictGet_isSome_iff {α : Type} (d : Dict α) (k : String) :
    (dictGet d k).isSome = true ↔ k ∈ d.map Prod.fst := by
  induction d with
  | nil => simp [dictGet]
  | cons e rest ih =>
    rw [dictGet_cons]
    by_cases h : e.1 = k
    · simp [h]
    · rw [if_neg h, List.map_cons]
      simp only [List.mem_cons]
      constructor
      · intro hs
        exact Or.inr (ih.mp hs)
      · intro hm
        rcases hm with h1 | h2
        · exact absurd h1.symm h
        · exact ih.mpr h2

theorem dictGet_eq_none_iff {α : Type} (d : Dict α) (k : String) :
    dictGet d k = none ↔ k ∉ d.map Prod.fst := by
  rw [← dictGet_isSome_iff]
  cases dictGet d k <;> simp

theorem dictGet_mem {α : Type} {d : Dict α} {k : String} {v : α}
    (h : dictGet d k = some v) : (k, v) ∈ d := by
  induction d with
  | nil => simp [dictGet] at h
  | cons e rest ih =>
    rw [dictGet_cons] at h
    by_cases he : e.1 = k
    · rw [if_pos he] at h
      have h2 : e.2 = v := Option.some.inj h
      have he2 : e = (k, v) := Prod.ext he h2
      rw [← he2]
      exact List.mem_cons_self e rest
    · rw [if_neg he] at h
      exact List.mem_cons_of_mem _ (ih h)

theorem dictContains_iff {α : Type} (d : Dict α) (k : String) :
    dictContains d k = true ↔ k ∈ d.map Prod.fst := by
  simp [dictContains]

theorem dictGet_append {α : Type} (d d' : Dict α) (k : String) :
    dictGet (d ++ d') k =
      match dictGet d k with
      | some v => some v
      | none => dictGet d' k := by
  induction d with
  | nil => simp [dictGet]
  | cons e rest ih =>
    rw [List.cons_append, dictGet_cons, dictGet_cons]
    by_cases h : e.1 = k
    · simp [h]
    · simp [h, ih]

theorem keys_dictInsert {α : Type} (d : Dict α) (k : String) (v : α) :
    (dictInsert d k v).map Prod.fst =
      if k ∈ d.map Prod.fst then d.map Prod.fst else d.map Prod.fst ++ [k] := by
  unfold dictInsert
  by_cases h : k ∈ d.map Prod.fst
  · rw [if_pos (by simpa [dictContains] using h), if_pos h, List.map_map]
    apply List.map_congr_left
    intro e _
    by_cases h2 : e.1 = k
    · simp [h2]
    · simp [h2]
  · rw [if_neg (by simpa [dictContains] using h), if_neg h]
    simp

theorem dictInsert_of_not_mem {α : Type} {d : Dict α} {k : String}
    (h : k ∉ d.map Prod.fst) (v : α) : dictInsert d k v = d ++ [(k, v)] := by
  simp [dictInsert, dictContains, h]

theorem dictReplace_get_self {α : Type} {d : Dict α} {k : String} (v : α)
    (h : k ∈ d.map Prod.fst) :
    dictGet (d.map (fun e => if e.1 = k then (k, v) else e)) k = some v := by
  induction d with
  | nil => simp at h
  | cons e rest ih =>
    rw [List.map_cons]
    by_cases he : e.1 = k
    · rw [if_pos he, dictGet_cons]
      simp
    · rw [if_neg he, dictGet_cons, if_neg he]
      apply ih
      rcases List.mem_map.mp h with ⟨a, ha, hka⟩
      rcases List.mem_cons.mp ha with h1 | h2
      · exact absurd (h1 ▸ hka) he
      · exact hka ▸ List.mem_map_of_mem Prod.fst h2

theorem dictReplace_get_ne {α : Type} (d : Dict α) {k k' : String} (v : α)
    (h : k' ≠ k) :
    dictGet (d.map (fun e => if e.1 = k then (k, v) else e)) k' = dictGet d k' := by
  induction d with
  | nil => simp
  | cons e rest ih =>
    rw [List.map_cons]
    by_cases he : e.1 = k
    · rw [if_pos he, dictGet_cons, dictGet_cons,
        if_neg (fun hh : (k, v).1 = k' => h hh.symm), if_neg (fun hh => h (he ▸ hh).symm)]
      exact ih
    · rw [if_neg he, dictGet_cons, dictGet_cons]
      by_cases hk : e.1 = k'
      · rw [if_pos hk, if_pos hk]
      · rw [if_neg hk, if_neg hk, ih]

theorem dictGet_dictInsert {α : Type} (d : Dict α) (k k' : String) (v : α) :
    dictGet (dictInsert d k v) k' = if k' = k then some v else dictGet d k' := by
  by_cases hc : k ∈ d.map Prod.fst
  · rw [dictInsert, if_pos (by simpa [dictContains] using hc)]
    by_cases hk : k' = k
    · rw [if_pos hk, hk, dictReplace_get_self v hc]
    · rw [if_neg hk, dictReplace_get_ne d v hk]
  · rw [dictInsert_of_not_mem hc v, dictGet_append]
    have hnone : dictGet d k = none := (dictGet_eq_none_iff d k).mpr hc
    by_cases hk : k' = k
    · rw [if_pos hk, hk, hnone, dictGet_cons]
      simp
    · rw [if_neg hk]
      cases hdk : dictGet d k' with
      | some w => simp
      | none =>
        rw [dictGet_cons, if_neg (fun hh : (k, v).1 = k' => hk hh.symm)]
        simp [dictGet]

theorem mem_dictInsert {α : Type} {e : String × α} {d : Dict α} {k : String} {v : α}
    (h : e ∈ dictInsert d k v) : e = (k, v) ∨ e ∈ d := by
  unfold dictInsert at h
  split at h
  · rcases List.mem_map.mp h with ⟨a, ha, hae⟩
    by_cases h2 : a.1 = k
    · left
      rw [← hae]
      simp [h2]
    · right
      rw [← hae]
      simpa [h2] using ha
  · rcases List.mem_append.mp h with h1 | h2
    · exact Or.inr h1
    · exact Or.inl (by simpa using h2)

theorem nodupKeys_dictInsert {α : Type} {d : Dict α} (k : String) (v : α)
    (h : (d.map Prod.fst).Nodup) : ((dictInsert d k v).map Prod.fst).Nodup := by
  rw [keys_dictInsert]
  by_cases hc : k ∈ d.map Prod.fst
  · rw [if_pos hc]
    exact h
  · rw [if_neg hc]
    exact h.append (List.nodup_singleton k)
      (fun a ha hb => absurd ((List.mem_singleton.mp hb) ▸ ha) hc)

/-! ## Merge lemmas -/

theorem mem_keys_dictInsert {α : Type} (d : Dict α) (k k' : String) (v : α) :
    k' ∈ (dictInsert d k v).map Prod.fst ↔ k' = k ∨ k' ∈ d.map Prod.fst := by
  rw [keys_dictInsert]
  by_cases h : k ∈ d.map Prod.fst
  · rw [if_pos h]
    constructor
    · exact Or.inr
    · rintro (h1 | h2)
      · exact h1 ▸ h
      · exact h2
  · rw [if_neg h]
    simp [or_comm]

theorem mergePosts_keys {ps : List Post} {m m' : Dict Post}
    (h : mergePosts m ps = some m') :
    m'.map Prod.fst = m.map Prod.fst ++ newKeysAux (m.map Prod.fst) ps := by
  induction ps generalizing m with
  | nil =>
    rw [mergePosts] at h
    cases h
    simp [newKeysAux]
  | cons p rest ih =>
    rw [mergePosts] at h
    cases hl : dictGet p "link" with
    | none => rw [hl] at h; cases h
    | some lp =>
      rw [hl] at h
      rw [ih h, keys_dictInsert, newKeysAux]
      simp only [hl]
      by_cases hm : lp ∈ m.map Prod.fst
      · rw [if_pos hm, if_pos hm]
      · rw [if_neg hm, if_neg hm, List.append_assoc, List.singleton_append]

theorem mergePosts_keys_mem {ps : List Post} {m m' : Dict Post}
    (h : mergePosts m ps = some m') (l : String) :
    l ∈ m'.map Prod.fst ↔
      l ∈ m.map Prod.fst ∨ l ∈ ps.filterMap (fun p => dictGet p "link") := by
  induction ps generalizing m with
  | nil =>
    rw [mergePosts] at h
    cases h
    simp
  | cons p rest ih =>
    rw [mergePosts] at h
    cases hl : dictGet p "link" with
    | none => rw [hl] at h; cases h
    | some lp =>
      rw [hl] at h
      rw [ih h, List.filterMap_cons, hl, mem_keys_dictInsert]
      simp only [List.mem_cons]
      tauto

theorem mergePosts_nodup {ps : List Post} {m m' : Dict Post}
    (h : mergePosts m ps = some m') (hm : (m.map Prod.fst).Nodup) :
    (m'.map Prod.fst).Nodup := by
  induction ps generalizing m with
  | nil =>
    rw [mergePosts] at h
    cases h
    exact hm
  | cons p rest ih =>
    rw [mergePosts] at h
    cases hl : dictGet p "link" with
    | none => rw [hl] at h; cases h
    | some lp =>
      rw [hl] at h
      exact ih h (nodupKeys_dictInsert lp p hm)

theorem mergePosts_get {ps : List Post} {m m' : Dict Post}
    (h : mergePosts m ps = some m') (l : String) :
    dictGet m' l =
      match lastPostWith l ps with
      | some q => some q
      | none => dictGet m l := by
  induction ps generalizing m with
  | nil =>
    rw [mergePosts] at h
    cases h
    simp [lastPostWith]
  | cons p rest ih =>
    rw [mergePosts] at h
    cases hl : dictGet p "link" with
    | none => rw [hl] at h; cases h
    | some lp =>
      rw [hl] at h
      rw [ih h, lastPostWith]
      cases hr : lastPostWith l rest with
      | some q => simp
      | none =>
        simp only [hl]
        rw [dictGet_dictInsert]
        by_cases hll : l = lp
        · rw [if_pos hll, if_pos (by rw [hll]), hll]
        · rw [if_neg hll, if_neg (fun hh : some lp = some l => hll (Option.some.inj hh).symm)]

theorem mergePosts_entry {ps : List Post} {m m' : Dict Post}
    (h : mergePosts m ps = some m')
    (hm : ∀ e ∈ m, dictGet e.2 "link" = some e.1) :
    ∀ e ∈ m', dictGet e.2 "link" = some e.1 := by
  induction ps generalizing m with
  | nil =>
    rw [mergePosts] at h
    cases h
    exact hm
  | cons p rest ih =>
    rw [mergePosts] at h
    cases hl : dictGet p "link" with
    | none => rw [hl] at h; cases h
    | some lp =>
      rw [hl] at h
      refine ih h (fun e he => ?_)
      rcases mem_dictInsert he with h1 | h2
      · rw [h1]
        exact hl
      · exact hm e h2

theorem lastPostWith_isSome_of_mem {ps : List Post} {l : String}
    (h : l ∈ ps.filterMap (fun p => dictGet p "link")) :
    ∃ q, lastPostWith l ps = some q := by
  induction ps with
  | nil => simp at h
  | cons p rest ih =>
    rw [lastPostWith]
    cases hr : lastPostWith l rest with
    | some q => exact ⟨q, rfl⟩
    | none =>
      cases hl : dictGet p "link" with
      | none =>
        simp only [List.filterMap_cons, hl] at h
        rcases ih h with ⟨q, hq⟩
        rw [hq] at hr
        cases hr
      | some lp =>
        simp only [List.filterMap_cons, hl] at h
        rcases List.mem_cons.mp h with h1 | h2
        · exact ⟨p, by simp [hl, h1]⟩
        · rcases ih h2 with ⟨q, hq⟩
          rw [hq] at hr
          cases hr

theorem newKeysAux_mem {ps : List Post} {ks : List String} {l : String}
    (h : l ∈ newKeysAux ks ps) :
    l ∈ ps.filterMap (fun p => dictGet p "link") ∧ l ∉ ks := by
  induction ps generalizing ks with
  | nil => simp [newKeysAux] at h
  | cons p rest ih =>
    rw [newKeysAux] at h
    cases hl : dictGet p "link" with
    | none => rw [hl] at h; simp at h
    | some lp =>
      simp only [hl] at h
      simp only [List.filterMap_cons, hl]
      by_cases hm : lp ∈ ks
      · rw [if_pos hm] at h
        rcases ih h with ⟨h1, h2⟩
        exact ⟨List.mem_cons_of_mem _ h1, h2⟩
      · rw [if_neg hm] at h
        rcases List.mem_cons.mp h with h1 | h2
        · exact ⟨h1 ▸ List.mem_cons_self lp _, h1 ▸ hm⟩
        · rcases ih h2 with ⟨h3, h4⟩
          refine ⟨List.mem_cons_of_mem _ h3, fun hk => h4 ?_⟩
          exact List.mem_append.mpr (Or.inl hk)

/-! ## Reading the existing file -/

theorem rowKey_some {r : Post} {l : String} (h : rowKey r = some l) :
    dictGet r "link" = some l ∧ l ≠ "" := by
  unfold rowKey at h
  cases hg : dictGet r "link" with
  | none => rw [hg] at h; cases h
  | some l' =>
    simp only [hg] at h
    by_cases he : l' = ""
    · rw [if_pos he] at h; cases h
    · rw [if_neg he] at h
      have := Option.some.inj h
      subst this
      exact ⟨rfl, he⟩

theorem buildExistingAux_cons (m : Dict Post) (r : Post) (rest : List Post) :
    buildExistingAux m (r :: rest) =
      buildExistingAux
        (match rowKey r with
          | some l => dictInsert m l r
          | none => m) rest := rfl

theorem buildExistingAux_entry {rows : List Post} {m : Dict Post}
    (hm : ∀ e ∈ m, rowKey e.2 = some e.1) :
    ∀ e ∈ buildExistingAux m rows, rowKey e.2 = some e.1 := by
  induction rows generalizing m with
  | nil => exact hm
  | cons r rest ih =>
    rw [buildExistingAux_cons]
    cases hk : rowKey r with
    | none => exact ih hm
    | some l =>
      apply ih
      intro e he
      rcases mem_dictInsert he with h1 | h2
      · rw [h1]
        exact hk
      · exact hm e h2

theorem buildExisting_entry (rows : List Post) :
    ∀ e ∈ buildExisting rows, rowKey e.2 = some e.1 :=
  buildExistingAux_entry (by simp)

theorem buildExistingAux_keys_mem (rows : List Post) (m : Dict Post) (l : String) :
    l ∈ (buildExistingAux m rows).map Prod.fst ↔
      l ∈ m.map Prod.fst ∨ l ∈ rows.filterMap rowKey := by
  induction rows generalizing m with
  | nil => simp [buildExistingAux]
  | cons r rest ih =>
    rw [buildExistingAux_cons]
    cases hk : rowKey r with
    | none =>
      simp only [List.filterMap_cons, hk]
      exact ih _
    | some lk =>
      simp only [List.filterMap_cons, hk]
      rw [ih]
      rw [mem_keys_dictInsert]
      simp only [List.mem_cons]
      tauto

theorem buildExistingAux_nodup {rows : List Post} {m : Dict Post}
    (hm : (m.map Prod.fst).Nodup) :
    ((buildExistingAux m rows).map Prod.fst).Nodup := by
  induction rows generalizing m with
  | nil => exact hm
  | cons r rest ih =>
    rw [buildExistingAux_cons]
    cases hk : rowKey r with
    | none => exact ih hm
    | some l => exact ih (nodupKeys_dictInsert l r hm)

theorem buildExisting_nodup (rows : List Post) :
    ((buildExisting rows).map Prod.fst).Nodup :=
  buildExistingAux_nodup (by simp)

theorem buildExistingAux_keyed {rows : List Post} {m : Dict Post}
    (hkeyed : ∀ r ∈ rows, (rowKey r).isSome = true)
    (hdis : ∀ l ∈ rows.filterMap rowKey, l ∉ m.map Prod.fst)
    (hnd : (rows.filterMap rowKey).Nodup) :
    buildExistingAux m rows = m ++ rows.map (fun r => ((rowKey r).getD "", r)) := by
  induction rows generalizing m with
  | nil => simp [buildExistingAux]
  | cons r rest ih =>
    rw [buildExistingAux_cons]
    cases hk : rowKey r with
    | none =>
      have := hkeyed r (List.mem_cons_self r rest)
      rw [hk] at this
      cases this
    | some l =>
      have hlm : l ∉ m.map Prod.fst :=
        hdis l (by simp [List.filterMap_cons, hk])
      simp only [hk]
      rw [dictInsert_of_not_mem hlm r]
      have hnd2 : (rest.filterMap rowKey).Nodup := by
        have := hnd
        simp only [List.filterMap_cons, hk] at this
        exact this.of_cons
      have hlrest : l ∉ rest.filterMap rowKey := by
        have := hnd
        simp only [List.filterMap_cons, hk, List.nodup_cons] at this
        exact this.1
      rw [ih (fun r' hr' => hkeyed r' (List.mem_cons_of_mem r hr'))
        (fun l' hl' => ?_) hnd2]
      · rw [List.map_cons, List.append_assoc, List.singleton_append]
        simp [hk]
      · rw [List.map_append]
        intro hmem
        rcases List.mem_append.mp hmem with h1 | h2
        · exact hdis l' (by simp [List.filterMap_cons, hk, hl']) h1
        · have : l' = l := by simpa using h2
          exact hlrest (this ▸ hl')

/-! ## Writing rows back -/

theorem dictToCells_eq {fs : List String} {p : Post} {r : List String}
    (h : dictToCells fs p = some r) :
    r = fs.map (fun fn => (dictGet p fn).getD "") ∧ ∀ e ∈ p, e.1 ∈ fs := by
  by_cases hall : p.all (fun e => decide (e.1 ∈ fs)) = true
  · rw [dictToCells, if_pos hall] at h
    refine ⟨(Option.some.inj h).symm, ?_⟩
    intro e he
    simpa using List.all_eq_true.mp hall e he
  · rw [dictToCells, if_neg hall] at h
    cases h

theorem writeAll_eq {fs : List String} {ps : List Post} {rs : List (List String)}
    (h : writeAll fs ps = some rs) :
    rs = ps.map (fun p => fs.map (fun fn => (dictGet p fn).getD "")) := by
  induction ps generalizing rs with
  | nil =>
    rw [writeAll] at h
    cases h
    simp
  | cons p rest ih =>
    rw [writeAll] at h
    cases hc : dictToCells fs p with
    | none => simp only [hc] at h; exact Option.noConfusion h
    | some r =>
      cases hw : writeAll fs rest with
      | none => simp only [hc, hw] at h; exact Option.noConfusion h
      | some rs' =>
        simp only [hc, hw, Option.some.injEq] at h
        subst h
        rw [List.map_cons, (dictToCells_eq hc).1, ih hw]

theorem writeAll_forall2 {fs : List String} {ps : List Post} {rs : List (List String)}
    (h : writeAll fs ps = some rs) :
    List.Forall₂ (fun p r => dictToCells fs p = some r) ps rs := by
  induction ps generalizing rs with
  | nil =>
    rw [writeAll] at h
    cases h
    exact List.Forall₂.nil
  | cons p rest ih =>
    rw [writeAll] at h
    cases hc : dictToCells fs p with
    | none => simp only [hc] at h; exact Option.noConfusion h
    | some r =>
      cases hw : writeAll fs rest with
      | none => simp only [hc, hw] at h; exact Option.noConfusion h
      | some rs' =>
        simp only [hc, hw, Option.some.injEq] at h
        subst h
        exact List.Forall₂.cons hc (ih hw)

theorem cellsToRow_norm (p : Post) :
    cellsToRow blogPostFields (blogPostFields.map (fun fn => (dictGet p fn).getD "")) =
      normRow p := rfl

theorem readDicts_write {recs : List Post} {f : CsvFile}
    (hhead : f.header = blogPostFields)
    (h : writeAll blogPostFields recs = some f.rows) :
    readDicts f = recs.map normRow := by
  unfold readDicts
  rw [hhead, writeAll_eq h, List.map_map]
  apply List.map_congr_left
  intro p _
  exact cellsToRow_norm p

theorem dictGet_normRow (p : Post) (k : String) :
    dictGet (normRow p) k =
      if k ∈ blogPostFields then some ((dictGet p k).getD "") else none := by
  have hn : normRow p = [("title", (dictGet p "title").getD ""),
      ("body", (dictGet p "body").getD ""),
      ("link", (dictGet p "link").getD "")] := rfl
  rw [hn, dictGet_cons, dictGet_cons, dictGet_cons]
  by_cases h1 : k = "title"
  · simp [h1, blogPostFields]
  · by_cases h2 : k = "body"
    · simp [h2, blogPostFields]
    · by_cases h3 : k = "link"
      · simp [h3, blogPostFields]
      · have hnm : k ∉ blogPostFields := by
          simp only [blogPostFields, List.mem_cons, List.not_mem_nil, or_false]
          rintro (h | h | h)
          · exact h1 h
          · exact h2 h
          · exact h3 h
        rw [if_neg (fun h => h1 h.symm), if_neg (fun h => h2 h.symm),
          if_neg (fun h => h3 h.symm), if_neg hnm]
        simp [dictGet]

theorem dictGet_normRow_link (p : Post) :
    dictGet (normRow p) "link" = some ((dictGet p "link").getD "") := by
  rw [dictGet_normRow, if_pos (by simp [blogPostFields])]

theorem dictGet_normRow_eq_of_wf {p : Post} (hwf : wfPost p) (k : String) :
    dictGet (normRow p) k = dictGet p k := by
  rw [dictGet_normRow]
  by_cases h : k ∈ blogPostFields
  · rw [if_pos h]
    rcases Option.isSome_iff_exists.mp ((dictGet_isSome_iff p k).mpr (hwf.1 k h)) with ⟨v, hv⟩
    rw [hv]
    rfl
  · rw [if_neg h]
    symm
    rw [dictGet_eq_none_iff]
    intro hmem
    rcases List.mem_map.mp hmem with ⟨e, he, hek⟩
    exact h (hek ▸ hwf.2 e he)

/-- Successful nonempty saves always write header plus projected records
(`data_utils.py` lines 58-61 and 98-101). -/
theorem save_eq_write {posts : List Post} {file : Option CsvFile} {append : Bool}
    {f' : Option CsvFile} (hne : posts ≠ [])
    (h : save_posts_to_csv posts file append = some f') :
    ∃ recs rs, persistedRecords posts file append = some recs ∧
      writeAll blogPostFields recs = some rs ∧ f' = some ⟨blogPostFields, rs⟩ := by
  rw [save_posts_to_csv, if_neg (by simpa [List.isEmpty_iff] using hne)] at h
  cases hp : persistedRecords posts file append with
  | none => simp only [hp] at h; exact Option.noConfusion h
  | some recs =>
    cases hw : writeAll blogPostFields recs with
    | none => simp only [hp, hw] at h; exact Option.noConfusion h
    | some rs =>
      simp only [hp, hw, Option.some.injEq] at h
      exact ⟨recs, rs, rfl, hw, h.symm⟩

/-! ## Locating rows in the written file -/

theorem find?_congr {α : Type} {p q : α → Bool} {l : List α}
    (h : ∀ a ∈ l, p a = q a) : l.find? p = l.find? q := by
  induction l with
  | nil => rfl
  | cons a rest ih =>
    rw [List.find?_cons, List.find?_cons, h a (List.mem_cons_self a rest)]
    cases hq : q a
    · exact ih (fun b hb => h b (List.mem_cons_of_mem a hb))
    · rfl

theorem find?_map_eq {α β : Type} (f : α → β) (p : β → Bool) (l : List α) :
    (l.map f).find? p = (l.find? (fun a => p (f a))).map f := by
  induction l with
  | nil => rfl
  | cons a rest ih =>
    rw [List.map_cons, List.find?_cons, List.find?_cons]
    cases hp : p (f a)
    · exact ih
    · rfl

/-- The dicts read back from a merged write are the projections of the
mapping's values, and their link column is the mapping's key column. -/
theorem linkCells_write {m' : Dict Post} {f' : CsvFile}
    (hhead : f'.header = blogPostFields)
    (hrows : writeAll blogPostFields (m'.map Prod.snd) = some f'.rows)
    (hinv : ∀ e ∈ m', dictGet e.2 "link" = some e.1) :
    linkCells f' = m'.map Prod.fst := by
  unfold linkCells
  rw [readDicts_write hhead hrows, List.map_map, List.map_map]
  apply List.map_congr_left
  intro e he
  show (dictGet (normRow e.2) "link").getD "" = e.1
  rw [dictGet_normRow_link, hinv e he]
  rfl

theorem rowFor_write {m' : Dict Post} {f' : CsvFile}
    (hhead : f'.header = blogPostFields)
    (hrows : writeAll blogPostFields (m'.map Prod.snd) = some f'.rows)
    (hinv : ∀ e ∈ m', dictGet e.2 "link" = some e.1) (l : String) :
    rowFor f' l = (dictGet m' l).map normRow := by
  unfold rowFor
  rw [readDicts_write hhead hrows, List.map_map, find?_map_eq]
  rw [find?_congr (q := fun e => decide (e.1 = l)) (fun e he => ?_)]
  · unfold dictGet
    cases hf : List.find? (fun e => decide (e.1 = l)) m' with
    | none => rfl
    | some e => rfl
  · show decide (dictGet (normRow e.2) "link" = some l) = decide (e.1 = l)
    rw [dictGet_normRow_link, hinv e he]
    simp

theorem buildExisting_keys_mem (f : CsvFile) (l : String) :
    l ∈ (buildExisting (readDicts f)).map Prod.fst ↔ l ∈ existingKeys f := by
  rw [buildExisting, buildExistingAux_keys_mem]
  simp [existingKeys]

theorem buildExisting_link_entry (rows : List Post) :
    ∀ e ∈ buildExisting rows, dictGet e.2 "link" = some e.1 :=
  fun e he => (rowKey_some (buildExisting_entry rows e he)).1

/-- Shared analysis of a successful nonempty append-path save: the merged
mapping exists and the output file is its projection. -/
theorem append_save_spec {posts : List Post} {f f' : CsvFile}
    (hne : posts ≠ [])
    (h : save_posts_to_csv posts (some f) true = some (some f')) :
    ∃ m', mergePosts (buildExisting (readDicts f)) posts = some m' ∧
      f'.header = blogPostFields ∧
      writeAll blogPostFields (m'.map Prod.snd) = some f'.rows ∧
      (∀ e ∈ m', dictGet e.2 "link" = some e.1) := by
  rcases save_eq_write hne h with ⟨recs, rs, hp, hw, hf⟩
  rw [persistedRecords] at hp
  cases hm : mergePosts (buildExisting (readDicts f)) posts with
  | none => rw [hm] at hp; exact Option.noConfusion hp
  | some m' =>
    rw [hm] at hp
    have hrecs : m'.map Prod.snd = recs := by simpa using hp
    have hf2 : f' = ⟨blogPostFields, rs⟩ := Option.some.inj hf
    subst hf2
    refine ⟨m', rfl, rfl, ?_, ?_⟩
    · rw [hrecs]
      exact hw
    · exact mergePosts_entry hm (buildExisting_link_entry (readDicts f))

/-! ## Crawl loop bookkeeping lemmas -/

@[simp] theorem savePending_processed (s : CrawlState) :
    (savePending s).processed = s.processed := by
  unfold savePending
  cases save_posts_to_csv s.all_posts s.file true <;> rfl

@[simp] theorem savePending_successful (s : CrawlState) :
    (savePending s).successful = s.successful := by
  unfold savePending
  cases save_posts_to_csv s.all_posts s.file true <;> rfl

@[simp] theorem savePending_refreshed (s : CrawlState) :
    (savePending s).refreshed = s.refreshed := by
  unfold savePending
  cases save_posts_to_csv s.all_posts s.file true <;> rfl

@[simp] theorem savePending_failed (s : CrawlState) :
    (savePending s).failed = s.failed := by
  unfold savePending
  cases save_posts_to_csv s.all_posts s.file true <;> rfl

@[simp] theorem savePending_skipped (s : CrawlState) :
    (savePending s).skipped = s.skipped := by
  unfold savePending
  cases save_posts_to_csv s.all_posts s.file true <;> rfl

@[simp] theorem savePending_seen (s : CrawlState) :
    (savePending s).seen_links = s.seen_links := by
  unfold savePending
  cases save_posts_to_csv s.all_posts s.file true <;> rfl

@[simp] theorem savePending_delayLog (s : CrawlState) :
    (savePending s).delayLog = s.delayLog := by
  unfold savePending
  cases save_posts_to_csv s.all_posts s.file true <;> rfl

theorem crawlValidate_processed (already : List String) (mx : ℕ) (link : String)
    (pd : Post) (s : CrawlState) :
    (crawlValidate already mx link pd s).processed = s.processed := by
  unfold crawlValidate
  split_ifs <;> simp

theorem crawlValidate_skipped (already : List String) (mx : ℕ) (link : String)
    (pd : Post) (s : CrawlState) :
    (crawlValidate already mx link pd s).skipped = s.skipped := by
  unfold crawlValidate
  split_ifs <;> simp

theorem crawlValidate_delayLog (already : List String) (mx : ℕ) (link : String)
    (pd : Post) (s : CrawlState) :
    (crawlValidate already mx link pd s).delayLog = s.delayLog := by
  unfold crawlValidate
  split_ifs <;> simp

theorem crawlValidate_sum (already : List String) (mx : ℕ) (link : String)
    (pd : Post) (s : CrawlState) :
    (crawlValidate already mx link pd s).successful
      + (crawlValidate already mx link pd s).refreshed
      + (crawlValidate already mx link pd s).failed
      = s.successful + s.refreshed + s.failed + 1 := by
  unfold crawlValidate
  split_ifs <;> simp <;> omega

theorem crawlValidate_reject {already : List String} {mx : ℕ} {link : String}
    {pd : Post} (s : CrawlState)
    (h : ¬ (pd ≠ [] ∧ ∀ k ∈ REQUIRED_KEYS, dictContains pd k = true)) :
    crawlValidate already mx link pd s = { s with failed := s.failed + 1 } := by
  unfold crawlValidate
  rw [if_neg h]

theorem crawlValidate_accept_failed {already : List String} {mx : ℕ} {link : String}
    {pd : Post} (s : CrawlState)
    (h : pd ≠ [] ∧ ∀ k ∈ REQUIRED_KEYS, dictContains pd k = true) :
    (crawlValidate already mx link pd s).failed = s.failed := by
  unfold crawlValidate
  rw [if_pos h]
  split_ifs <;> simp

theorem crawlValidate_accept_sum2 {already : List String} {mx : ℕ} {link : String}
    {pd : Post} (s : CrawlState)
    (h : pd ≠ [] ∧ ∀ k ∈ REQUIRED_KEYS, dictContains pd k = true) :
    (crawlValidate already mx link pd s).successful
      + (crawlValidate already mx link pd s).refreshed
      = s.successful + s.refreshed + 1 := by
  unfold crawlValidate
  rw [if_pos h]
  split_ifs <;> simp <;> omega

theorem crawlFetch_processed (ds : ℚ) (already : List String) (mx : ℕ) (i : ℕ)
    (inp : CrawlInput) (link : String) (s : CrawlState) :
    (crawlFetch ds already mx i inp link s).processed = s.processed + 1 := by
  unfold crawlFetch
  split_ifs <;> rw [crawlValidate_processed]

theorem crawlFetch_skipped (ds : ℚ) (already : List String) (mx : ℕ) (i : ℕ)
    (inp : CrawlInput) (link : String) (s : CrawlState) :
    (crawlFetch ds already mx i inp link s).skipped = s.skipped := by
  unfold crawlFetch
  split_ifs <;> rw [crawlValidate_skipped]

theorem crawlFetch_sum (ds : ℚ) (already : List String) (mx : ℕ) (i : ℕ)
    (inp : CrawlInput) (link : String) (s : CrawlState) :
    (crawlFetch ds already mx i inp link s).successful
      + (crawlFetch ds already mx i inp link s).refreshed
      + (crawlFetch ds already mx i inp link s).failed
      = s.successful + s.refreshed + s.failed + 1 := by
  unfold crawlFetch
  split_ifs <;> rw [crawlValidate_sum]

theorem crawlStep_inv {rf ds : ℚ} {already : List String} {mx : ℕ} {i : ℕ}
    {inp : CrawlInput} {s : CrawlState}
    (hinv : countersInv mx s) (hlt : s.processed < mx) :
    countersInv mx (crawlStep rf ds already mx i inp s) := by
  obtain ⟨hsum, _⟩ := hinv
  unfold crawlStep countersInv
  split_ifs
  · exact ⟨hsum, Nat.le_of_lt hlt⟩
  · exact ⟨hsum, Nat.le_of_lt hlt⟩
  · exact ⟨hsum, Nat.le_of_lt hlt⟩
  · rw [crawlFetch_sum, crawlFetch_processed]
    exact ⟨by simpa using hsum, by simpa using hlt⟩

theorem crawlLoop_inv (rf ds : ℚ) (already : List String) (mx : ℕ)
    (links : List CrawlInput) (i : ℕ) (s : CrawlState)
    (h : countersInv mx s) :
    countersInv mx (crawlLoop rf ds already mx links i s) := by
  induction links generalizing i s with
  | nil => exact h
  | cons inp rest ih =>
    rw [crawlLoop]
    split_ifs with h1 h2
    · exact h
    · exact h
    · exact ih _ _ (crawlStep_inv h (Nat.lt_of_not_le h2))

/-! ## C1: the merge invariant of save_posts_to_csv -/

/-- **C1 (counterexample)**: two successful `append=True` calls that violate
one-row-per-distinct-key.  (a) With an empty batch the call returns without
touching the file (`if not posts: return`), so a pre-existing file whose two
rows share the identity key "x" keeps its duplicate.  (b) With NO existing
file the call takes the raw overwrite path (`data_utils.py` lines 57-61, no
dedup), so a nonempty batch whose two records share the link "a" completes
successfully and writes two rows with the same identity key. -/
theorem c1_merge_cex :
    save_posts_to_csv []
        (some ⟨blogPostFields, [["t1", "b1", "x"], ["t2", "b2", "x"]]⟩) true =
      some (some ⟨blogPostFields, [["t1", "b1", "x"], ["t2", "b2", "x"]]⟩) ∧
    ¬ (linkCells ⟨blogPostFields, [["t1", "b1", "x"], ["t2", "b2", "x"]]⟩).Nodup ∧
    save_posts_to_csv
        [[("title", "t1"), ("body", "b1"), ("link", "a")],
         [("title", "t2"), ("body", "b2"), ("link", "a")]] none true =
      some (some ⟨blogPostFields, [["t1", "b1", "a"], ["t2", "b2", "a"]]⟩) ∧
    ¬ (linkCells ⟨blogPostFields, [["t1", "b1", "a"], ["t2", "b2", "a"]]⟩).Nodup :=
  ⟨rfl, by decide, rfl, by decide⟩

/-- **C1 (amended)**: for every `append=True` call that completes
successfully with a NONEMPTY batch of new records on an EXISTING readable
file (with no file the batch is written raw, without dedup), the resulting
file contains exactly one row per distinct identity key (its link column has
no duplicate); the keys are the union of the previously existing rows' keys
and the new records' keys; and for every key occurring in the new records the
stored row is the schema projection of the newest such record — equal, field
for field, to that record whenever it is schema-shaped (newest wins on
conflict). -/
theorem c1_merge_invariant (posts : List Post) (f f' : CsvFile)
    (hne : posts ≠ [])
    (h : save_posts_to_csv posts (some f) true = some (some f')) :
    (linkCells f').Nodup ∧
    (∀ l, l ∈ linkCells f' ↔
      l ∈ existingKeys f ∨ l ∈ posts.filterMap (fun p => dictGet p "link")) ∧
    (∀ l p, lastPostWith l posts = some p →
      rowFor f' l = some (normRow p) ∧
      (wfPost p → ∀ k, dictGet (normRow p) k = dictGet p k)) := by
  rcases append_save_spec hne h with ⟨m', hm, hhead, hrows, hinv⟩
  have hlc : linkCells f' = m'.map Prod.fst := linkCells_write hhead hrows hinv
  refine ⟨?_, ?_, ?_⟩
  · rw [hlc]
    exact mergePosts_nodup hm (buildExisting_nodup (readDicts f))
  · intro l
    rw [hlc, mergePosts_keys_mem hm, buildExisting_keys_mem]
  · intro l p hp
    refine ⟨?_, fun hwf k => dictGet_normRow_eq_of_wf hwf k⟩
    rw [rowFor_write hhead hrows hinv, mergePosts_get hm]
    simp only [hp]
    rfl

/-- Witness for C1 at the spec's worked example: existing row keyed "a", new
batch refreshes "a" and adds "b". -/
theorem c1_merge_invariant_wit :
    (linkCells ⟨blogPostFields, [["t2", "b2", "a"], ["t3", "b3", "b"]]⟩).Nodup ∧
    (∀ l, l ∈ linkCells ⟨blogPostFields, [["t2", "b2", "a"], ["t3", "b3", "b"]]⟩ ↔
      l ∈ existingKeys ⟨blogPostFields, [["t1", "b1", "a"]]⟩ ∨
      l ∈ ([[("title", "t2"), ("body", "b2"), ("link", "a")],
            [("title", "t3"), ("body", "b3"), ("link", "b")]] : List Post).filterMap
          (fun p => dictGet p "link")) ∧
    (∀ l p, lastPostWith l
        [[("title", "t2"), ("body", "b2"), ("link", "a")],
         [("title", "t3"), ("body", "b3"), ("link", "b")]] = some p →
      rowFor ⟨blogPostFields, [["t2", "b2", "a"], ["t3", "b3", "b"]]⟩ l =
        some (normRow p) ∧
      (wfPost p → ∀ k, dictGet (normRow p) k = dictGet p k)) :=
  c1_merge_invariant
    [[("title", "t2"), ("body", "b2"), ("link", "a")],
     [("title", "t3"), ("body", "b3"), ("link", "b")]]
    ⟨blogPostFields, [["t1", "b1", "a"]]⟩
    ⟨blogPostFields, [["t2", "b2", "a"], ["t3", "b3", "b"]]⟩
    (by decide) rfl

/-! ## C2: header and rows of every written file -/

/-- **C2**: every successful save that persists a nonempty batch writes a
file whose header row is exactly the Record schema's field names in declared
order, followed by one data row per persisted record: the rows are, in
order, the schema projections of the persisted records. -/
theorem c2_header_rows (posts : List Post) (file : Option CsvFile) (append : Bool)
    (f' : Option CsvFile) (hne : posts ≠ [])
    (h : save_posts_to_csv posts file append = some f') :
    ∃ g recs, f' = some g ∧ g.header = blogPostFields ∧
      persistedRecords posts file append = some recs ∧
      List.Forall₂ (fun p r => dictToCells blogPostFields p = some r) recs g.rows := by
  rcases save_eq_write hne h with ⟨recs, rs, hp, hw, hf⟩
  exact ⟨⟨blogPostFields, rs⟩, recs, hf, rfl, hp, writeAll_forall2 hw⟩

/-- Witness for C2: a fresh overwrite save of one record. -/
theorem c2_header_rows_wit :
    ∃ g recs, some (⟨blogPostFields, [["t", "b", "l"]]⟩ : CsvFile) = some g ∧
      g.header = blogPostFields ∧
      persistedRecords [[("title", "t"), ("body", "b"), ("link", "l")]] none false =
        some recs ∧
      List.Forall₂ (fun p r => dictToCells blogPostFields p = some r) recs g.rows :=
  c2_header_rows [[("title", "t"), ("body", "b"), ("link", "l")]] none false
    (some ⟨blogPostFields, [["t", "b", "l"]]⟩) (by decide) rfl

/-! ## C8: idempotence of the merge -/

/-- **C8 (counterexample)**: two successive `append=True` calls with the same
(empty) record set both complete successfully and leave a pre-existing
duplicate-keyed file untouched, so the resulting file does not have one row
per identity key. -/
theorem c8_idempotence_cex :
    save_posts_to_csv []
        (some ⟨blogPostFields, [["u1", "c1", "y"], ["u2", "c2", "y"]]⟩) true =
      some (some ⟨blogPostFields, [["u1", "c1", "y"], ["u2", "c2", "y"]]⟩) ∧
    save_posts_to_csv []
        (some ⟨blogPostFields, [["u1", "c1", "y"], ["u2", "c2", "y"]]⟩) true =
      some (some ⟨blogPostFields, [["u1", "c1", "y"], ["u2", "c2", "y"]]⟩) ∧
    ¬ (linkCells ⟨blogPostFields, [["u1", "c1", "y"], ["u2", "c2", "y"]]⟩).Nodup :=
  ⟨rfl, rfl, by decide⟩

/-- **C8 (amended)**: calling `save_posts_to_csv` twice in succession with the
same NONEMPTY record set (`append=True`) yields a file with exactly one row
per identity key (no duplicate in the link column), whose content for every
key occurring in the records is the schema projection of the second call's
newest input record for that key — field-for-field equal to it when it is
schema-shaped. -/
theorem c8_idempotence (posts : List Post) (F0 F1 : Option CsvFile) (F2 : CsvFile)
    (hne : posts ≠ [])
    (h1 : save_posts_to_csv posts F0 true = some F1)
    (h2 : save_posts_to_csv posts F1 true = some (some F2)) :
    (linkCells F2).Nodup ∧
    ∀ l p, lastPostWith l posts = some p →
      rowFor F2 l = some (normRow p) ∧
      (wfPost p → ∀ k, dictGet (normRow p) k = dictGet p k) := by
  rcases save_eq_write hne h1 with ⟨recs1, rs1, _, _, hf1⟩
  subst hf1
  rcases append_save_spec hne h2 with ⟨m', hm, hhead, hrows, hinv⟩
  refine ⟨?_, ?_⟩
  · rw [linkCells_write hhead hrows hinv]
    exact mergePosts_nodup hm (buildExisting_nodup _)
  · intro l p hp
    refine ⟨?_, fun hwf k => dictGet_normRow_eq_of_wf hwf k⟩
    rw [rowFor_write hhead hrows hinv, mergePosts_get hm]
    simp only [hp]
    rfl

/-- Witness for C8: saving the same one-record batch twice starting from no
file. -/
theorem c8_idempotence_wit :
    (linkCells ⟨blogPostFields, [["t2", "b2", "a"]]⟩).Nodup ∧
    ∀ l p, lastPostWith l [[("title", "t2"), ("body", "b2"), ("link", "a")]] = some p →
      rowFor ⟨blogPostFields, [["t2", "b2", "a"]]⟩ l = some (normRow p) ∧
      (wfPost p → ∀ k, dictGet (normRow p) k = dictGet p k) :=
  c8_idempotence [[("title", "t2"), ("body", "b2"), ("link", "a")]] none
    (some ⟨blogPostFields, [["t2", "b2", "a"]]⟩)
    ⟨blogPostFields, [["t2", "b2", "a"]]⟩ (by decide) rfl rfl

/-! ## C10: row order of the rewritten file -/

theorem filterMap_rowKey_keyed {rows : List Post}
    (hkeyed : ∀ r ∈ rows, (rowKey r).isSome = true) :
    rows.filterMap rowKey = rows.map (fun r => (rowKey r).getD "") := by
  induction rows with
  | nil => rfl
  | cons r rest ih =>
    cases hk : rowKey r with
    | none =>
      have := hkeyed r (List.mem_cons_self r rest)
      rw [hk] at this
      cases this
    | some l =>
      rw [List.filterMap_cons, List.map_cons]
      simp only [hk]
      rw [ih (fun r' hr' => hkeyed r' (List.mem_cons_of_mem r hr'))]
      rfl

theorem linkCells_eq_existingKeys {f : CsvFile}
    (hkeyed : ∀ r ∈ readDicts f, (rowKey r).isSome = true) :
    linkCells f = existingKeys f := by
  unfold linkCells existingKeys
  rw [filterMap_rowKey_keyed hkeyed]
  apply List.map_congr_left
  intro r hr
  have hs := hkeyed r hr
  cases hk : rowKey r with
  | none => rw [hk] at hs; cases hs
  | some l =>
    rcases rowKey_some hk with ⟨hg, _⟩
    rw [hg]

theorem buildExisting_keyed {f : CsvFile}
    (hkeyed : ∀ r ∈ readDicts f, (rowKey r).isSome = true)
    (hnd : (existingKeys f).Nodup) :
    buildExisting (readDicts f) =
      (readDicts f).map (fun r => ((rowKey r).getD "", r)) := by
  unfold buildExisting
  rw [buildExistingAux_keyed hkeyed (by simp) (by simpa [existingKeys] using hnd)]
  rfl

theorem dictGet_pairMap {rows : List Post} (l : String)
    (hkeyed : ∀ r ∈ rows, (rowKey r).isSome = true) :
    dictGet (rows.map (fun r => ((rowKey r).getD "", r))) l =
      rows.find? (fun r => decide (dictGet r "link" = some l)) := by
  show ((rows.map (fun r => ((rowKey r).getD "", r))).find?
      (fun e => decide (e.1 = l))).map Prod.snd = _
  rw [find?_map_eq]
  rw [find?_congr (q := fun r => decide (dictGet r "link" = some l)) (fun r hr => ?_)]
  · generalize rows.find? (fun r => decide (dictGet r "link" = some l)) = o
    cases o with
    | none => rfl
    | some r => rfl
  · have hs := hkeyed r hr
    cases hk : rowKey r with
    | none => rw [hk] at hs; cases hs
    | some l' =>
      rcases rowKey_some hk with ⟨hg, _⟩
      simp [hg]

/-- **C10 (counterexample)**: two successful merges on existing readable
files that do NOT preserve the previously existing rows.  (a) A row whose
`link` cell is empty is silently dropped by the merge's read loop
(`data_utils.py` line 72, `if 'link' in row and row['link']`): the file
`[["t0","b0",""], ["t1","b1","c"]]` loses its first row entirely, and the
remaining rows shift up.  (b) Two rows sharing the key "d" are collapsed to
one (the later content at the earlier position), so the first row's record
also disappears although its key collides with no new record. -/
theorem c10_order_cex :
    save_posts_to_csv [[("title", "tb"), ("body", "bb"), ("link", "b")]]
        (some ⟨blogPostFields, [["t0", "b0", ""], ["t1", "b1", "c"]]⟩) true =
      some (some ⟨blogPostFields, [["t1", "b1", "c"], ["tb", "bb", "b"]]⟩) ∧
    linkCells ⟨blogPostFields, [["t0", "b0", ""], ["t1", "b1", "c"]]⟩ = ["", "c"] ∧
    linkCells ⟨blogPostFields, [["t1", "b1", "c"], ["tb", "bb", "b"]]⟩ = ["c", "b"] ∧
    normRow (cellsToRow blogPostFields ["t0", "b0", ""]) ∉
      readDicts ⟨blogPostFields, [["t1", "b1", "c"], ["tb", "bb", "b"]]⟩ ∧
    save_posts_to_csv [[("title", "te"), ("body", "be"), ("link", "e")]]
        (some ⟨blogPostFields, [["t1", "b1", "d"], ["t2", "b2", "d"]]⟩) true =
      some (some ⟨blogPostFields, [["t2", "b2", "d"], ["te", "be", "e"]]⟩) ∧
    normRow (cellsToRow blogPostFields ["t1", "b1", "d"]) ∉
      readDicts ⟨blogPostFields, [["t2", "b2", "d"], ["te", "be", "e"]]⟩ :=
  ⟨rfl, by decide, by decide, by decide, rfl, by decide⟩

/-- **C10 (amended)**: rewriting an existing readable file whose rows each
carry a non-empty `link` key, no two alike, with a nonempty batch preserves
the relative order of the previously existing rows:
the link column of the result is the old link column followed by the
genuinely new keys in the order the records were given; a colliding key's
row is refreshed in place with the newest record for it; a non-colliding
existing row is kept (re-projected onto the schema); and every appended key
is genuinely new and carries one of the given records. -/
theorem c10_order_preserved (posts : List Post) (f f' : CsvFile)
    (hne : posts ≠ [])
    (hkeyed : ∀ r ∈ readDicts f, (rowKey r).isSome = true)
    (hnd : (existingKeys f).Nodup)
    (h : save_posts_to_csv posts (some f) true = some (some f')) :
    linkCells f' = linkCells f ++ newKeysAux (existingKeys f) posts ∧
    (∀ l p, lastPostWith l posts = some p → rowFor f' l = some (normRow p)) ∧
    (∀ l, l ∈ existingKeys f → lastPostWith l posts = none →
      rowFor f' l = (rowFor f l).map normRow) ∧
    (∀ l, l ∈ newKeysAux (existingKeys f) posts →
      l ∉ existingKeys f ∧ ∃ p, lastPostWith l posts = some p) := by
  rcases append_save_spec hne h with ⟨m', hm, hhead, hrows, hinv⟩
  have hb : buildExisting (readDicts f) =
      (readDicts f).map (fun r => ((rowKey r).getD "", r)) :=
    buildExisting_keyed hkeyed hnd
  have hbk : (buildExisting (readDicts f)).map Prod.fst = existingKeys f := by
    rw [hb, List.map_map, existingKeys, filterMap_rowKey_keyed hkeyed]
    rfl
  refine ⟨?_, ?_, ?_, ?_⟩
  · rw [linkCells_write hhead hrows hinv, mergePosts_keys hm, hbk,
      linkCells_eq_existingKeys hkeyed]
  · intro l p hp
    rw [rowFor_write hhead hrows hinv, mergePosts_get hm]
    simp only [hp]
    rfl
  · intro l _ hp
    rw [rowFor_write hhead hrows hinv, mergePosts_get hm]
    simp only [hp]
    rw [hb, dictGet_pairMap l hkeyed]
    rfl
  · intro l hl
    have := newKeysAux_mem hl
    exact ⟨this.2, lastPostWith_isSome_of_mem this.1⟩

/-- Witness for C10: refresh key "a" in place, keep key "c", append key "b". -/
theorem c10_order_preserved_wit :
    linkCells ⟨blogPostFields, [["t2", "b2", "a"], ["tz", "bz", "c"], ["t3", "b3", "b"]]⟩ =
      linkCells ⟨blogPostFields, [["t1", "b1", "a"], ["tz", "bz", "c"]]⟩ ++
        newKeysAux (existingKeys ⟨blogPostFields, [["t1", "b1", "a"], ["tz", "bz", "c"]]⟩)
          [[("title", "t2"), ("body", "b2"), ("link", "a")],
           [("title", "t3"), ("body", "b3"), ("link", "b")]] ∧
    (∀ l p, lastPostWith l
        [[("title", "t2"), ("body", "b2"), ("link", "a")],
         [("title", "t3"), ("body", "b3"), ("link", "b")]] = some p →
      rowFor ⟨blogPostFields, [["t2", "b2", "a"], ["tz", "bz", "c"], ["t3", "b3", "b"]]⟩ l =
        some (normRow p)) ∧
    (∀ l, l ∈ existingKeys ⟨blogPostFields, [["t1", "b1", "a"], ["tz", "bz", "c"]]⟩ →
      lastPostWith l
        [[("title", "t2"), ("body", "b2"), ("link", "a")],
         [("title", "t3"), ("body", "b3"), ("link", "b")]] = none →
      rowFor ⟨blogPostFields, [["t2", "b2", "a"], ["tz", "bz", "c"], ["t3", "b3", "b"]]⟩ l =
        (rowFor ⟨blogPostFields, [["t1", "b1", "a"], ["tz", "bz", "c"]]⟩ l).map normRow) ∧
    (∀ l, l ∈ newKeysAux (existingKeys ⟨blogPostFields, [["t1", "b1", "a"], ["tz", "bz", "c"]]⟩)
        [[("title", "t2"), ("body", "b2"), ("link", "a")],
         [("title", "t3"), ("body", "b3"), ("link", "b")]] →
      l ∉ existingKeys ⟨blogPostFields, [["t1", "b1", "a"], ["tz", "bz", "c"]]⟩ ∧
      ∃ p, lastPostWith l
        [[("title", "t2"), ("body", "b2"), ("link", "a")],
         [("title", "t3"), ("body", "b3"), ("link", "b")]] = some p) :=
  c10_order_preserved
    [[("title", "t2"), ("body", "b2"), ("link", "a")],
     [("title", "t3"), ("body", "b3"), ("link", "b")]]
    ⟨blogPostFields, [["t1", "b1", "a"], ["tz", "bz", "c"]]⟩
    ⟨blogPostFields, [["t2", "b2", "a"], ["tz", "bz", "c"], ["t3", "b3", "b"]]⟩
    (by decide) (by decide) (by decide) rfl

/-! ## C3: the counter identity -/

/-- **C3**: at every point during the crawl loop (after any number `k` of
iterations) and in the final summary state, the counters satisfy
`successful + refreshed + failed = processed` and `processed ≤ max_posts`. -/
theorem c3_counters (rf ds : ℚ) (mx : ℕ) (file : Option CsvFile)
    (links : List CrawlInput) (k : ℕ) :
    countersInv mx
      (crawlLoop rf ds (load_existing_posts file) mx (links.take k) 0 (initState file)) ∧
    countersInv mx (crawl_blog_posts rf ds mx file links) := by
  constructor
  · exact crawlLoop_inv rf ds _ mx _ 0 _ ⟨rfl, Nat.zero_le mx⟩
  · unfold crawl_blog_posts
    split_ifs
    · exact ⟨rfl, Nat.zero_le mx⟩
    · exact crawlLoop_inv rf ds _ mx _ 0 _ ⟨rfl, Nat.zero_le mx⟩
    · rcases crawlLoop_inv rf ds (load_existing_posts file) mx links 0 (initState file)
        ⟨rfl, Nat.zero_le mx⟩ with ⟨h1, h2⟩
      exact ⟨by simpa using h1, by simpa using h2⟩
    · exact crawlLoop_inv rf ds _ mx _ 0 _ ⟨rfl, Nat.zero_le mx⟩

/-! ## C7: the DECIDE step -/

/-- **C7**: for an entry with a usable, not-yet-seen link whose key is among
the already scraped keys, the DECIDE step skips the item — incrementing
`skipped` and leaving `processed` untouched — exactly when the drawn
`r ≥ random_factor`; with `random_factor = 0` and `r ∈ [0,1)` the item is
always skipped, and with `random_factor = 1` and `r ∈ [0,1)` it is never
skipped (the item goes on to be fetched and processed). -/
theorem c7_decide_skip (rf ds : ℚ) (already : List String) (mx : ℕ) (i : ℕ)
    (inp : CrawlInput) (s : CrawlState)
    (hlink : (dictGet inp.link_data "link").getD "" ≠ "")
    (hseen : (dictGet inp.link_data "link").getD "" ∉ s.seen_links)
    (hmem : (dictGet inp.link_data "link").getD "" ∈ already) :
    (rf ≤ inp.r →
      crawlStep rf ds already mx i inp s =
        { s with
            seen_links := s.seen_links ++ [(dictGet inp.link_data "link").getD ""],
            skipped := s.skipped + 1 }) ∧
    (inp.r < rf →
      (crawlStep rf ds already mx i inp s).skipped = s.skipped ∧
      (crawlStep rf ds already mx i inp s).processed = s.processed + 1) ∧
    (rf = 0 → 0 ≤ inp.r →
      (crawlStep rf ds already mx i inp s).skipped = s.skipped + 1 ∧
      (crawlStep rf ds already mx i inp s).processed = s.processed) ∧
    (rf = 1 → inp.r < 1 →
      (crawlStep rf ds already mx i inp s).skipped = s.skipped ∧
      (crawlStep rf ds already mx i inp s).processed = s.processed + 1) := by
  have hskip : ∀ _ : ¬ inp.r < rf,
      crawlStep rf ds already mx i inp s =
        { s with
            seen_links := s.seen_links ++ [(dictGet inp.link_data "link").getD ""],
            skipped := s.skipped + 1 } := by
    intro h
    unfold crawlStep
    rw [if_neg hlink, if_neg hseen, if_pos ⟨hmem, h⟩]
  have hfetch : ∀ _ : inp.r < rf,
      (crawlStep rf ds already mx i inp s).skipped = s.skipped ∧
      (crawlStep rf ds already mx i inp s).processed = s.processed + 1 := by
    intro h
    unfold crawlStep
    rw [if_neg hlink, if_neg hseen, if_neg (fun hc => hc.2 h)]
    rw [crawlFetch_skipped, crawlFetch_processed]
    exact ⟨rfl, rfl⟩
  refine ⟨fun h => hskip (not_lt.mpr h), hfetch, ?_, ?_⟩
  · intro h0 hr
    rw [hskip (by rw [h0]; exact not_lt.mpr hr)]
    exact ⟨rfl, rfl⟩
  · intro h1 hr
    exact hfetch (by rw [h1]; exact hr)

/-- Witness for C7 with `random_factor = 0`, `r = 1/2`: the already-scraped
entry is skipped. -/
theorem c7_decide_skip_wit :
    ((0 : ℚ) ≤ (⟨[("title", "A"), ("link", "a")], 1/2, 0, []⟩ : CrawlInput).r →
      crawlStep 0 5 ["a"] 10 0 ⟨[("title", "A"), ("link", "a")], 1/2, 0, []⟩ (initState none) =
        { initState none with
            seen_links := (initState none).seen_links ++
              [(dictGet (⟨[("title", "A"), ("link", "a")], 1/2, 0, []⟩ : CrawlInput).link_data
                  "link").getD ""],
            skipped := (initState none).skipped + 1 }) ∧
    ((⟨[("title", "A"), ("link", "a")], 1/2, 0, []⟩ : CrawlInput).r < 0 →
      (crawlStep 0 5 ["a"] 10 0 ⟨[("title", "A"), ("link", "a")], 1/2, 0, []⟩
          (initState none)).skipped = (initState none).skipped ∧
      (crawlStep 0 5 ["a"] 10 0 ⟨[("title", "A"), ("link", "a")], 1/2, 0, []⟩
          (initState none)).processed = (initState none).processed + 1) ∧
    ((0 : ℚ) = 0 → (0 : ℚ) ≤ (⟨[("title", "A"), ("link", "a")], 1/2, 0, []⟩ : CrawlInput).r →
      (crawlStep 0 5 ["a"] 10 0 ⟨[("title", "A"), ("link", "a")], 1/2, 0, []⟩
          (initState none)).skipped = (initState none).skipped + 1 ∧
      (crawlStep 0 5 ["a"] 10 0 ⟨[("title", "A"), ("link", "a")], 1/2, 0, []⟩
          (initState none)).processed = (initState none).processed) ∧
    ((0 : ℚ) = 1 → (⟨[("title", "A"), ("link", "a")], 1/2, 0, []⟩ : CrawlInput).r < 1 →
      (crawlStep 0 5 ["a"] 10 0 ⟨[("title", "A"), ("link", "a")], 1/2, 0, []⟩
          (initState none)).skipped = (initState none).skipped ∧
      (crawlStep 0 5 ["a"] 10 0 ⟨[("title", "A"), ("link", "a")], 1/2, 0, []⟩
          (initState none)).processed = (initState none).processed + 1) :=
  c7_decide_skip 0 5 ["a"] 10 0 ⟨[("title", "A"), ("link", "a")], 1/2, 0, []⟩
    (initState none) (by decide) (by decide) (by decide)

/-! ## C4: the VALIDATING step -/

/-- **C4 (counterexample)**: a fetched record whose required field `name` is
present but EMPTY is accepted and batched for persistence by the crawl loop
(`main.py` line 144 checks only `key in post_data`), with `failed` staying 0,
although `is_complete_post` — the present-AND-non-empty check the claim
describes — rejects it. -/
theorem c4_validation_cex :
    is_complete_post
      [("name", ""), ("price", "x"), ("location", "x"), ("capacity", "x"),
       ("rating", "x"), ("reviews", "x"), ("description", "x")] REQUIRED_KEYS = false ∧
    (crawlStep 1 0 [] 10 0
      ⟨[("title", "T"), ("link", "L")], 0, 0,
        [("name", ""), ("price", "x"), ("location", "x"), ("capacity", "x"),
         ("rating", "x"), ("reviews", "x"), ("description", "x")]⟩
      (initState none)).successful = 1 ∧
    (crawlStep 1 0 [] 10 0
      ⟨[("title", "T"), ("link", "L")], 0, 0,
        [("name", ""), ("price", "x"), ("location", "x"), ("capacity", "x"),
         ("rating", "x"), ("reviews", "x"), ("description", "x")]⟩
      (initState none)).failed = 0 ∧
    (crawlStep 1 0 [] 10 0
      ⟨[("title", "T"), ("link", "L")], 0, 0,
        [("name", ""), ("price", "x"), ("location", "x"), ("capacity", "x"),
         ("rating", "x"), ("reviews", "x"), ("description", "x")]⟩
      (initState none)).all_posts =
      [[("name", ""), ("price", "x"), ("location", "x"), ("capacity", "x"),
        ("rating", "x"), ("reviews", "x"), ("description", "x")]] :=
  ⟨by decide, by decide, by decide, by decide⟩

/-- **C4 (amended)**: for an item that reaches VALIDATING, the fetched record
is accepted for persistence iff it is non-empty and every required field is
PRESENT in it — emptiness of the values is not checked; otherwise `failed`
is incremented and nothing is batched or written. -/
theorem c4_validation_amended (rf ds : ℚ) (already : List String) (mx : ℕ)
    (i : ℕ) (inp : CrawlInput) (s : CrawlState)
    (hlink : (dictGet inp.link_data "link").getD "" ≠ "")
    (hseen : (dictGet inp.link_data "link").getD "" ∉ s.seen_links)
    (hdec : ¬ ((dictGet inp.link_data "link").getD "" ∈ already ∧ ¬ (inp.r < rf))) :
    ((inp.fetched ≠ [] ∧ ∀ k ∈ REQUIRED_KEYS, dictContains inp.fetched k = true) →
      (crawlStep rf ds already mx i inp s).failed = s.failed ∧
      (crawlStep rf ds already mx i inp s).successful
        + (crawlStep rf ds already mx i inp s).refreshed
        = s.successful + s.refreshed + 1) ∧
    (¬ (inp.fetched ≠ [] ∧ ∀ k ∈ REQUIRED_KEYS, dictContains inp.fetched k = true) →
      (crawlStep rf ds already mx i inp s).failed = s.failed + 1 ∧
      (crawlStep rf ds already mx i inp s).successful = s.successful ∧
      (crawlStep rf ds already mx i inp s).refreshed = s.refreshed ∧
      (crawlStep rf ds already mx i inp s).all_posts = s.all_posts ∧
      (crawlStep rf ds already mx i inp s).file = s.file) := by
  have hstep : crawlStep rf ds already mx i inp s =
      crawlFetch ds already mx i inp ((dictGet inp.link_data "link").getD "")
        { s with seen_links :=
            s.seen_links ++ [(dictGet inp.link_data "link").getD ""] } := by
    unfold crawlStep
    rw [if_neg hlink, if_neg hseen, if_neg hdec]
  constructor
  · intro hacc
    rw [hstep]
    unfold crawlFetch
    split_ifs
    · rw [crawlValidate_accept_failed _ hacc, crawlValidate_accept_sum2 _ hacc]
      exact ⟨rfl, rfl⟩
    · rw [crawlValidate_accept_failed _ hacc, crawlValidate_accept_sum2 _ hacc]
      exact ⟨rfl, rfl⟩
  · intro hrej
    rw [hstep]
    unfold crawlFetch
    split_ifs
    · rw [crawlValidate_reject _ hrej]
      exact ⟨rfl, rfl, rfl, rfl, rfl⟩
    · rw [crawlValidate_reject _ hrej]
      exact ⟨rfl, rfl, rfl, rfl, rfl⟩

/-- Witness for C4 (amended): a record with all required keys present (one of
them empty) is accepted; the per-key presence condition is discharged
concretely. -/
theorem c4_validation_amended_wit :
    (((⟨[("title", "T"), ("link", "L")], 0, 0,
        [("name", ""), ("price", "x"), ("location", "x"), ("capacity", "x"),
         ("rating", "x"), ("reviews", "x"), ("description", "x")]⟩ : CrawlInput).fetched ≠ [] ∧
      ∀ k ∈ REQUIRED_KEYS,
        dictContains
          (⟨[("title", "T"), ("link", "L")], 0, 0,
            [("name", ""), ("price", "x"), ("location", "x"), ("capacity", "x"),
             ("rating", "x"), ("reviews", "x"), ("description", "x")]⟩ : CrawlInput).fetched
          k = true) →
      (crawlStep 1 0 [] 10 0
        ⟨[("title", "T"), ("link", "L")], 0, 0,
          [("name", ""), ("price", "x"), ("location", "x"), ("capacity", "x"),
           ("rating", "x"), ("reviews", "x"), ("description", "x")]⟩
        (initState none)).failed = (initState none).failed ∧
      (crawlStep 1 0 [] 10 0
        ⟨[("title", "T"), ("link", "L")], 0, 0,
          [("name", ""), ("price", "x"), ("location", "x"), ("capacity", "x"),
           ("rating", "x"), ("reviews", "x"), ("description", "x")]⟩
        (initState none)).successful
        + (crawlStep 1 0 [] 10 0
            ⟨[("title", "T"), ("link", "L")], 0, 0,
              [("name", ""), ("price", "x"), ("location", "x"), ("capacity", "x"),
               ("rating", "x"), ("reviews", "x"), ("description", "x")]⟩
            (initState none)).refreshed
        = (initState none).successful + (initState none).refreshed + 1) ∧
    (¬ ((⟨[("title", "T"), ("link", "L")], 0, 0,
        [("name", ""), ("price", "x"), ("location", "x"), ("capacity", "x"),
         ("rating", "x"), ("reviews", "x"), ("description", "x")]⟩ : CrawlInput).fetched ≠ [] ∧
      ∀ k ∈ REQUIRED_KEYS,
        dictContains
          (⟨[("title", "T"), ("link", "L")], 0, 0,
            [("name", ""), ("price", "x"), ("location", "x"), ("capacity", "x"),
             ("rating", "x"), ("reviews", "x"), ("description", "x")]⟩ : CrawlInput).fetched
          k = true) →
      (crawlStep 1 0 [] 10 0
        ⟨[("title", "T"), ("link", "L")], 0, 0,
          [("name", ""), ("price", "x"), ("location", "x"), ("capacity", "x"),
           ("rating", "x"), ("reviews", "x"), ("description", "x")]⟩
        (initState none)).failed = (initState none).failed + 1 ∧
      (crawlStep 1 0 [] 10 0
        ⟨[("title", "T"), ("link", "L")], 0, 0,
          [("name", ""), ("price", "x"), ("location", "x"), ("capacity", "x"),
           ("rating", "x"), ("reviews", "x"), ("description", "x")]⟩
        (initState none)).successful = (initState none).successful ∧
      (crawlStep 1 0 [] 10 0
        ⟨[("title", "T"), ("link", "L")], 0, 0,
          [("name", ""), ("price", "x"), ("location", "x"), ("capacity", "x"),
           ("rating", "x"), ("reviews", "x"), ("description", "x")]⟩
        (initState none)).refreshed = (initState none).refreshed ∧
      (crawlStep 1 0 [] 10 0
        ⟨[("title", "T"), ("link", "L")], 0, 0,
          [("name", ""), ("price", "x"), ("location", "x"), ("capacity", "x"),
           ("rating", "x"), ("reviews", "x"), ("description", "x")]⟩
        (initState none)).all_posts = (initState none).all_posts ∧
      (crawlStep 1 0 [] 10 0
        ⟨[("title", "T"), ("link", "L")], 0, 0,
          [("name", ""), ("price", "x"), ("location", "x"), ("capacity", "x"),
           ("rating", "x"), ("reviews", "x"), ("description", "x")]⟩
        (initState none)).file = (initState none).file) :=
  c4_validation_amended 1 0 [] 10 0
    ⟨[("title", "T"), ("link", "L")], 0, 0,
      [("name", ""), ("price", "x"), ("location", "x"), ("capacity", "x"),
       ("rating", "x"), ("reviews", "x"), ("description", "x")]⟩
    (initState none) (by decide) (by decide) (by decide)

/-! ## C6: the inter-request delay -/

/-- **C6 (counterexample)**: existing file knows key "a"; the shuffled list
starts with an already-scraped entry that gets skipped (`r = 0 ≥
random_factor = 0`) and continues with a fresh entry fetched at list index 1.
That second entry is the very FIRST processed item of the run
(processed-before = 0), yet a delay — `delayValue 5 0 = 4` seconds — is
applied before its fetch, because the code skips the delay only for list
index 0 (`if i > 0`), not for the first processed item. -/
theorem c6_delay_cex :
    (crawl_blog_posts 0 5 10 (some ⟨blogPostFields, [["t", "b", "a"]]⟩)
      [⟨[("title", "A"), ("link", "a")], 0, 0, []⟩,
       ⟨[("title", "B"), ("link", "b")], 0, 0, []⟩]).delayLog = [(1, 0, 0)] ∧
    (crawl_blog_posts 0 5 10 (some ⟨blogPostFields, [["t", "b", "a"]]⟩)
      [⟨[("title", "A"), ("link", "a")], 0, 0, []⟩,
       ⟨[("title", "B"), ("link", "b")], 0, 0, []⟩]).processed = 1 ∧
    (crawl_blog_posts 0 5 10 (some ⟨blogPostFields, [["t", "b", "a"]]⟩)
      [⟨[("title", "A"), ("link", "a")], 0, 0, []⟩,
       ⟨[("title", "B"), ("link", "b")], 0, 0, []⟩]).skipped = 1 ∧
    delayValue 5 0 = 4 :=
  ⟨by decide, by decide, by decide, by norm_num [delayValue]⟩

/-- **C6 (amended)**: for every item that reaches FETCHING, the delay is
skipped exactly when the entry sits at index 0 of the shuffled list; any
other fetched item — including the run's first processed item when an
earlier entry was skipped — is preceded by one delay of
`delay_seconds × (0.8 + 0.4·u)` with `u` the uniform draw from `[0,1)`, so
the delay lies in `[0.8·delay_seconds, 1.2·delay_seconds)`. -/
theorem c6_delay_amended (rf ds : ℚ) (already : List String) (mx : ℕ) (i : ℕ)
    (inp : CrawlInput) (s : CrawlState)
    (hlink : (dictGet inp.link_data "link").getD "" ≠ "")
    (hseen : (dictGet inp.link_data "link").getD "" ∉ s.seen_links)
    (hdec : ¬ ((dictGet inp.link_data "link").getD "" ∈ already ∧ ¬ (inp.r < rf))) :
    (i = 0 → (crawlStep rf ds already mx i inp s).delayLog = s.delayLog) ∧
    (0 < i → (crawlStep rf ds already mx i inp s).delayLog =
      s.delayLog ++ [(i, s.processed, inp.u)]) ∧
    (0 ≤ inp.u → inp.u < 1 → 0 < ds →
      ds * (4/5) ≤ delayValue ds inp.u ∧
      delayValue ds inp.u < ds * (6/5)) := by
  have hstep : crawlStep rf ds already mx i inp s =
      crawlFetch ds already mx i inp ((dictGet inp.link_data "link").getD "")
        { s with seen_links :=
            s.seen_links ++ [(dictGet inp.link_data "link").getD ""] } := by
    unfold crawlStep
    rw [if_neg hlink, if_neg hseen, if_neg hdec]
  refine ⟨?_, ?_, ?_⟩
  · intro h0
    subst h0
    rw [hstep]
    unfold crawlFetch
    rw [if_neg (by omega), crawlValidate_delayLog]
  · intro hi
    rw [hstep]
    unfold crawlFetch
    rw [if_pos hi, crawlValidate_delayLog]
  · intro hu0 hu1 hds
    unfold delayValue
    constructor
    · nlinarith
    · nlinarith

/-- Witness for C6 (amended) at list index 1 with `u = 0`, `ds = 5`. -/
theorem c6_delay_amended_wit :
    ((1 : ℕ) = 0 →
      (crawlStep 1 5 [] 10 1 ⟨[("title", "B"), ("link", "b")], 0, 0, []⟩
        (initState none)).delayLog = (initState none).delayLog) ∧
    (0 < (1 : ℕ) →
      (crawlStep 1 5 [] 10 1 ⟨[("title", "B"), ("link", "b")], 0, 0, []⟩
        (initState none)).delayLog =
        (initState none).delayLog ++
          [(1, (initState none).processed,
            (⟨[("title", "B"), ("link", "b")], 0, 0, []⟩ : CrawlInput).u)]) ∧
    (0 ≤ (⟨[("title", "B"), ("link", "b")], 0, 0, []⟩ : CrawlInput).u →
      (⟨[("title", "B"), ("link", "b")], 0, 0, []⟩ : CrawlInput).u < 1 → (0 : ℚ) < 5 →
      5 * (4/5) ≤ delayValue 5 (⟨[("title", "B"), ("link", "b")], 0, 0, []⟩ : CrawlInput).u ∧
      delayValue 5 (⟨[("title", "B"), ("link", "b")], 0, 0, []⟩ : CrawlInput).u < 5 * (6/5)) :=
  c6_delay_amended 1 5 [] 10 1 ⟨[("title", "B"), ("link", "b")], 0, 0, []⟩
    (initState none) (by decide) (by decide) (by decide)

/-! ## C5: discovery failure -/

/-- **C5 (counterexample)**: link discovery signals failure only by
emptiness: its return value after a failed listing-page fetch EQUALS its
return value after a successful fetch that found zero links, so the caller
cannot distinguish the two cases. -/
theorem c5_discovery_cex :
    extract_blog_post_links none 15 = extract_blog_post_links (some []) 15 ∧
    extract_blog_post_links none 15 = [] :=
  ⟨rfl, rfl⟩

/-- **C5 (amended)**: if the listing-page fetch does not succeed, link
discovery returns the empty sequence (indistinguishable from a successful
discovery that found zero links); on an empty discovery result the
orchestrator terminates immediately in its initial state — zero records
written (the file is untouched) and `processed = 0`. -/
theorem c5_discovery_amended (rf ds : ℚ) (mx : ℕ) (file : Option CsvFile)
    (maxL : ℕ) :
    extract_blog_post_links none maxL = [] ∧
    crawl_blog_posts rf ds mx file [] = initState file ∧
    (crawl_blog_posts rf ds mx file []).processed = 0 ∧
    (crawl_blog_posts rf ds mx file []).file = file :=
  ⟨rfl, rfl, rfl, rfl⟩

/-! ## C9: the extractor fallback -/

/-- **C9**: whenever the page fetch, the extraction call, or the parsing of
the extraction output fails, `scrape_blog_post` returns the fallback record
— carrying the entry's label in its `title` field and the target locator in
its `link` field, with exactly the Record schema's keys — instead of raising
(every failure path is a total function yielding a dict). -/
theorem c9_fallback (title url : String) (fetchOk : Bool) (main_content : String)
    (extractOk : Bool) (parsed : Option Post)
    (hfail : fetchOk = false ∨ extractOk = false ∨ parsed = none) :
    dictGet (scrape_blog_post title url fetchOk main_content extractOk parsed) "title"
      = some title ∧
    dictGet (scrape_blog_post title url fetchOk main_content extractOk parsed) "link"
      = some url ∧
    (scrape_blog_post title url fetchOk main_content extractOk parsed).map Prod.fst
      = blogPostFields := by
  have hfb : ∀ sn, dictGet (fallback_post title url sn) "title" = some title ∧
      dictGet (fallback_post title url sn) "link" = some url ∧
      (fallback_post title url sn).map Prod.fst = blogPostFields :=
    fun sn => ⟨rfl, rfl, rfl⟩
  cases fetchOk with
  | false => simpa [scrape_blog_post] using hfb ""
  | true =>
    cases extractOk with
    | false => simpa [scrape_blog_post] using hfb (main_content.take 500)
    | true =>
      cases parsed with
      | none => simpa [scrape_blog_post] using hfb ""
      | some pd => simp at hfail

/-- Witness for C9 at the spec's example: fetch fails for the entry
{label="Post X", target="/x"}. -/
theorem c9_fallback_wit :
    dictGet (scrape_blog_post "Post X" "/x" false "" true none) "title" = some "Post X" ∧
    dictGet (scrape_blog_post "Post X" "/x" false "" true none) "link" = some "/x" ∧
    (scrape_blog_post "Post X" "/x" false "" true none).map Prod.fst = blogPostFields :=
  c9_fallback "Post X" "/x" false "" true none (Or.inl rfl)

end Crawl
